import Mathlib

/-!
Verification of the ZeroVault password-manager core against its sources.

The development shallowly embeds the TypeScript sources:
 * `src/utils/crypto.ts` (key derivation, AES-GCM envelope encryption),
 * `src/extension/background/index.ts` (credential read path),
 * the zustand vault store (`addCredential`, `updateCredential`,
   `deleteCredential`, `syncVault`).

Modelling conventions:
 * JS byte strings are `List Nat` with every entry `< 256`.
 * `btoa`/`atob` are implemented as real base64 encode and forgiving
   base64 decode (the whitespace-stripping step of forgiving decode is
   not modelled; no stored envelope contains whitespace).
 * `TextEncoder`/`TextDecoder` are implemented as real UTF-8 encode and
   decode of the Lean `String` (a list of unicode scalar values).
 * AES-GCM and PBKDF2 are platform primitives, not repository code; they
   are embedded as ideal functionalities: PBKDF2 as an injective map of
   the (password, salt-bytes) pair, AES-GCM as an invertible keystream
   mask plus a recomputable 16-byte tag, faithful to the functional
   contract the repository code relies on (round trip, fixed 12-byte IV
   prefix, 16-byte tag, failure on tag mismatch).
 * Randomness (`crypto.getRandomValues`, `crypto.randomUUID`) is
   modelled as draws from an injective generator indexed by a draw
   counter, the standard collision-free idealization of a CSPRNG.
-/

/-- Little-endian base-256 expansion of `n` into exactly `k` bytes. -/
def natToBytes : Nat → Nat → List Nat
  | 0, _ => []
  | k + 1, n => n % 256 :: natToBytes k (n / 256)

/-- Recompose a little-endian byte list into a natural number. -/
def bytesToNat : List Nat → Nat
  | [] => 0
  | b :: bs => b + 256 * bytesToNat bs

theorem natToBytes_length (k n : Nat) : (natToBytes k n).length = k := by
  induction k generalizing n with
  | zero => rfl
  | succ k ih => simp [natToBytes, ih]

theorem natToBytes_lt (k n : Nat) : ∀ b ∈ natToBytes k n, b < 256 := by
  induction k generalizing n with
  | zero => intro b hb; simp [natToBytes] at hb
  | succ k ih =>
    intro b hb
    simp only [natToBytes, List.mem_cons] at hb
    rcases hb with h | h
    · omega
    · exact ih (n / 256) b h

theorem bytesToNat_natToBytes (k n : Nat) (h : n < 256 ^ k) :
    bytesToNat (natToBytes k n) = n := by
  induction k generalizing n with
  | zero => simp [natToBytes, bytesToNat]; omega
  | succ k ih =>
    have hdiv : n / 256 < 256 ^ k := by
      rw [Nat.div_lt_iff_lt_mul (by norm_num : 0 < 256)]
      calc n < 256 ^ (k + 1) := h
        _ = 256 ^ k * 256 := by ring
    simp [natToBytes, bytesToNat, ih (n / 256) hdiv]
    omega

/-- The base64 alphabet used by `btoa`. -/
def b64Alphabet : List Char :=
  "ABCDEFGHIJKLMNOPQRSTUVWXYZabcdefghijklmnopqrstuvwxyz0123456789+/".toList

/-- Base64 digit for a sextet value. -/
def encodeSextet (n : Nat) : Char := b64Alphabet.getD n 'A'

/-- Inverse base64 digit lookup; `none` for characters outside the alphabet. -/
def decodeSextet (c : Char) : Option Nat := b64Alphabet.findIdx? (· == c)

theorem decodeSextet_encodeSextet : ∀ n < 64, decodeSextet (encodeSextet n) = some n := by
  decide

theorem encodeSextet_ne_pad (n : Nat) : encodeSextet n ≠ '=' := by
  by_cases h : n < 64
  · revert n; decide
  · have hlen : b64Alphabet.length ≤ n := by
      have : b64Alphabet.length = 64 := by decide
      omega
    rw [encodeSextet, List.getD_eq_default _ _ hlen]
    decide

/-- Groups of three bytes become four base64 digits; the final one or two
bytes are padded with `=` exactly as `btoa` does. -/
def b64EncodeBytes : List Nat → List Char
  | [] => []
  | [a] => [encodeSextet (a / 4), encodeSextet (a % 4 * 16), '=', '=']
  | [a, b] =>
    [encodeSextet (a / 4), encodeSextet (a % 4 * 16 + b / 16), encodeSextet (b % 16 * 4), '=']
  | a :: b :: c :: rest =>
    encodeSextet (a / 4) :: encodeSextet (a % 4 * 16 + b / 16) ::
      encodeSextet (b % 16 * 4 + c / 64) :: encodeSextet (c % 64) :: b64EncodeBytes rest

/-- Drop one leading `=` if present (used on the reversed character list). -/
def dropOneEq : List Char → List Char
  | c :: rest => if c = '=' then rest else c :: rest
  | [] => []

/-- Remove one or two trailing `=` characters, as forgiving base64 does. -/
def stripTrailingEq (cs : List Char) : List Char :=
  (dropOneEq (dropOneEq cs.reverse)).reverse

/-- Decode base64 digit groups after padding removal: groups of four, with
a final group of two or three digits allowed, extra bits discarded. -/
def b64DecodeGroups : List Char → Option (List Nat)
  | [] => some []
  | [c1, c2] => do
    let s1 ← decodeSextet c1
    let s2 ← decodeSextet c2
    pure [s1 * 4 + s2 / 16]
  | [c1, c2, c3] => do
    let s1 ← decodeSextet c1
    let s2 ← decodeSextet c2
    let s3 ← decodeSextet c3
    pure [s1 * 4 + s2 / 16, s2 % 16 * 16 + s3 / 4]
  | c1 :: c2 :: c3 :: c4 :: rest => do
    let s1 ← decodeSextet c1
    let s2 ← decodeSextet c2
    let s3 ← decodeSextet c3
    let s4 ← decodeSextet c4
    let tail ← b64DecodeGroups rest
    pure ((s1 * 4 + s2 / 16) :: (s2 % 16 * 16 + s3 / 4) :: (s3 % 4 * 64 + s4) :: tail)
  | [_] => none

/-- Model of `btoa` on a JS binary string (a list of bytes `< 256`). -/
def btoaBytes (bs : List Nat) : List Char := b64EncodeBytes bs

/-- Model of `atob` (forgiving base64 decode): `none` models the thrown
`InvalidCharacterError`. -/
def atobBytes (cs : List Char) : Option (List Nat) :=
  b64DecodeGroups (if cs.length % 4 == 0 then stripTrailingEq cs else cs)

theorem b64EncodeBytes_length_mod4 : ∀ bs : List Nat, (b64EncodeBytes bs).length % 4 = 0
  | [] => rfl
  | [_] => by simp [b64EncodeBytes]
  | [_, _] => by simp [b64EncodeBytes]
  | _ :: _ :: _ :: rest => by
    have ih := b64EncodeBytes_length_mod4 rest
    simp only [b64EncodeBytes, List.length_cons]
    omega

theorem two_le_b64EncodeBytes_length : ∀ bs : List Nat, bs ≠ [] → 2 ≤ (b64EncodeBytes bs).length
  | [], h => absurd rfl h
  | [_], _ => by simp [b64EncodeBytes]
  | [_, _], _ => by simp [b64EncodeBytes]
  | _ :: _ :: _ :: rest, _ => by simp only [b64EncodeBytes, List.length_cons]; omega

theorem dropTwoEq_append (r zs : List Char) (h : 2 ≤ r.length) :
    dropOneEq (dropOneEq (r ++ zs)) = dropOneEq (dropOneEq r) ++ zs := by
  rcases r with _ | ⟨r1, _ | ⟨r2, rt⟩⟩
  · simp at h
  · simp at h
  · by_cases h1 : r1 = '='
    · subst h1
      by_cases h2 : r2 = '='
      · subst h2; simp [dropOneEq]
      · simp [dropOneEq, h2]
    · simp [dropOneEq, h1]

theorem stripTrailingEq_append (xs ys : List Char) (h : 2 ≤ ys.length) :
    stripTrailingEq (xs ++ ys) = xs ++ stripTrailingEq ys := by
  unfold stripTrailingEq
  rw [List.reverse_append, dropTwoEq_append _ _ (by simpa using h), List.reverse_append,
    List.reverse_reverse]

theorem b64DecodeGroups_stripTrailingEq_b64EncodeBytes :
    ∀ bs : List Nat, (∀ b ∈ bs, b < 256) →
      b64DecodeGroups (stripTrailingEq (b64EncodeBytes bs)) = some bs
  | [], _ => rfl
  | [a], hb => by
    have ha : a < 256 := hb a (by simp)
    have d1 := decodeSextet_encodeSextet (a / 4) (by omega)
    have d2 := decodeSextet_encodeSextet (a % 4 * 16) (by omega)
    have hs : stripTrailingEq (b64EncodeBytes [a]) =
        [encodeSextet (a / 4), encodeSextet (a % 4 * 16)] := by
      simp [b64EncodeBytes, stripTrailingEq, dropOneEq]
    rw [hs]
    simp only [b64DecodeGroups, d1, d2, Option.bind_eq_bind, Option.some_bind, Option.some.injEq]
    simp; omega
  | [a, b], hb => by
    have ha : a < 256 := hb a (by simp)
    have hbb : b < 256 := hb b (by simp)
    have d1 := decodeSextet_encodeSextet (a / 4) (by omega)
    have d2 := decodeSextet_encodeSextet (a % 4 * 16 + b / 16) (by omega)
    have d3 := decodeSextet_encodeSextet (b % 16 * 4) (by omega)
    have hs : stripTrailingEq (b64EncodeBytes [a, b]) =
        [encodeSextet (a / 4), encodeSextet (a % 4 * 16 + b / 16), encodeSextet (b % 16 * 4)] := by
      simp [b64EncodeBytes, stripTrailingEq, dropOneEq, encodeSextet_ne_pad]
    rw [hs]
    simp only [b64DecodeGroups, d1, d2, d3, Option.bind_eq_bind, Option.some_bind,
      Option.some.injEq]
    simp; omega
  | a :: b :: c :: rest, hb => by
    have ha : a < 256 := hb a (by simp)
    have hbb : b < 256 := hb b (by simp)
    have hc : c < 256 := hb c (by simp)
    have d1 := decodeSextet_encodeSextet (a / 4) (by omega)
    have d2 := decodeSextet_encodeSextet (a % 4 * 16 + b / 16) (by omega)
    have d3 := decodeSextet_encodeSextet (b % 16 * 4 + c / 64) (by omega)
    have d4 := decodeSextet_encodeSextet (c % 64) (by omega)
    have e1 : a / 4 * 4 + (a % 4 * 16 + b / 16) / 16 = a := by omega
    have e2 : (a % 4 * 16 + b / 16) % 16 * 16 + (b % 16 * 4 + c / 64) / 4 = b := by omega
    have e3 : (b % 16 * 4 + c / 64) % 4 * 64 + c % 64 = c := by omega
    rcases Decidable.em (rest = []) with hrest | hrest
    · subst hrest
      have hs : stripTrailingEq (b64EncodeBytes [a, b, c]) = b64EncodeBytes [a, b, c] := by
        simp [b64EncodeBytes, stripTrailingEq, dropOneEq, encodeSextet_ne_pad]
      rw [hs]
      simp only [b64EncodeBytes, b64DecodeGroups, d1, d2, d3, d4, Option.bind_eq_bind,
        Option.some_bind, Option.some.injEq]
      simp; omega
    · have ih := b64DecodeGroups_stripTrailingEq_b64EncodeBytes rest
        (fun x hx => hb x (by simp [hx]))
      have hs : stripTrailingEq (b64EncodeBytes (a :: b :: c :: rest)) =
          encodeSextet (a / 4) :: encodeSextet (a % 4 * 16 + b / 16) ::
            encodeSextet (b % 16 * 4 + c / 64) :: encodeSextet (c % 64) ::
            stripTrailingEq (b64EncodeBytes rest) := by
        have : b64EncodeBytes (a :: b :: c :: rest) =
            [encodeSextet (a / 4), encodeSextet (a % 4 * 16 + b / 16),
              encodeSextet (b % 16 * 4 + c / 64), encodeSextet (c % 64)] ++
              b64EncodeBytes rest := by
          simp [b64EncodeBytes]
        rw [this, stripTrailingEq_append _ _ (two_le_b64EncodeBytes_length rest hrest)]
        simp
      rw [hs]
      simp only [b64DecodeGroups, d1, d2, d3, d4, ih, Option.bind_eq_bind, Option.some_bind,
        Option.some.injEq]
      simp; omega

theorem atobBytes_btoaBytes (bs : List Nat) (hb : ∀ b ∈ bs, b < 256) :
    atobBytes (btoaBytes bs) = some bs := by
  unfold atobBytes btoaBytes
  rw [if_pos (by simp [b64EncodeBytes_length_mod4 bs])]
  exact b64DecodeGroups_stripTrailingEq_b64EncodeBytes bs hb

theorem btoaBytes_inj {bs1 bs2 : List Nat} (h1 : ∀ b ∈ bs1, b < 256)
    (h2 : ∀ b ∈ bs2, b < 256) (he : btoaBytes bs1 = btoaBytes bs2) : bs1 = bs2 := by
  have r1 := atobBytes_btoaBytes bs1 h1
  have r2 := atobBytes_btoaBytes bs2 h2
  rw [he, r2] at r1
  exact (Option.some.injEq _ _ ▸ r1).symm

/-- Whether a byte is a UTF-8 continuation byte. -/
def isContByte (b : Nat) : Bool := 128 ≤ b && b < 192

/-- UTF-8 encoding of one unicode scalar value, as `TextEncoder` emits it. -/
def utf8EncodeChar (n : Nat) : List Nat :=
  if n < 128 then [n]
  else if n < 2048 then [192 + n / 64, 128 + n % 64]
  else if n < 65536 then [224 + n / 4096, 128 + n / 64 % 64, 128 + n % 64]
  else [240 + n / 262144, 128 + n / 4096 % 64, 128 + n / 64 % 64, 128 + n % 64]

/-- Decode the head of a UTF-8 sequence: the code point and how many
continuation bytes it consumes; `none` on a malformed head. -/
def utf8Step (b : Nat) (rest : List Nat) : Option (Nat × Nat) :=
  if b < 128 then some (b, 0)
  else if b < 192 then none
  else if b < 224 then
    match rest with
    | c1 :: _ => if isContByte c1 then some ((b - 192) * 64 + (c1 - 128), 1) else none
    | [] => none
  else if b < 240 then
    match rest with
    | c1 :: c2 :: _ =>
      if isContByte c1 && isContByte c2 then
        some ((b - 224) * 4096 + (c1 - 128) * 64 + (c2 - 128), 2)
      else none
    | _ => none
  else
    match rest with
    | c1 :: c2 :: c3 :: _ =>
      if isContByte c1 && isContByte c2 && isContByte c3 then
        some ((b - 240) * 262144 + (c1 - 128) * 4096 + (c2 - 128) * 64 + (c3 - 128), 3)
      else none
    | _ => none

/-- UTF-8 decoding to a list of code points; `none` on malformed input. -/
def utf8Decode : List Nat → Option (List Nat)
  | [] => some []
  | b :: rest =>
    match utf8Step b rest with
    | none => none
    | some (cp, k) => (utf8Decode (rest.drop k)).map (cp :: ·)
termination_by l => l.length
decreasing_by
  simp only [List.length_cons, List.length_drop]
  omega

/-- UTF-8 encoding of a character list. -/
def utf8EncodeList (cs : List Char) : List Nat :=
  (cs.map (fun c => utf8EncodeChar c.toNat)).flatten

/-- Model of `TextEncoder.encode`. -/
def utf8Encode (s : String) : List Nat := utf8EncodeList s.toList

/-- Model of `TextDecoder.decode` on the byte sequences this development
uses (valid UTF-8; invalid input is reported as `none`). -/
def utf8DecodeString (bs : List Nat) : Option String :=
  (utf8Decode bs).map (fun cps => String.mk (cps.map Char.ofNat))

theorem utf8Decode_match_step (b : Nat) (rest : List Nat) :
    utf8Decode (b :: rest) =
      match utf8Step b rest with
      | none => none
      | some (cp, k) => (utf8Decode (rest.drop k)).map (cp :: ·) := by
  rw [utf8Decode]

theorem char_toNat_lt (c : Char) : c.toNat < 1114112 := by
  rcases c.valid with h | h
  · exact Nat.lt_trans h (by norm_num)
  · exact h.2

theorem utf8EncodeChar_lt (n : Nat) (hn : n < 1114112) :
    ∀ b ∈ utf8EncodeChar n, b < 256 := by
  intro b hb
  unfold utf8EncodeChar at hb
  split_ifs at hb with h1 h2 h3 <;> simp [List.mem_cons] at hb <;> omega

theorem utf8EncodeList_lt (cs : List Char) : ∀ b ∈ utf8EncodeList cs, b < 256 := by
  induction cs with
  | nil => intro b hb; simp [utf8EncodeList] at hb
  | cons c cs ih =>
    intro b hb
    simp only [utf8EncodeList, List.map_cons, List.flatten_cons, List.mem_append] at hb
    rcases hb with h | h
    · exact utf8EncodeChar_lt c.toNat (char_toNat_lt c) b h
    · exact ih b h

theorem utf8Encode_lt (s : String) : ∀ b ∈ utf8Encode s, b < 256 :=
  utf8EncodeList_lt s.toList

theorem utf8Decode_cons1 (b : Nat) (rest : List Nat) (h : b < 128) :
    utf8Decode (b :: rest) = (utf8Decode rest).map (b :: ·) := by
  rw [utf8Decode_match_step]
  have hs : utf8Step b rest = some (b, 0) := by
    unfold utf8Step
    rw [if_pos h]
  rw [hs]
  rfl

theorem utf8Decode_cons2 (b c1 : Nat) (rest : List Nat) (h1 : 192 ≤ b) (h2 : b < 224)
    (hc : isContByte c1 = true) :
    utf8Decode (b :: c1 :: rest) = (utf8Decode rest).map (((b - 192) * 64 + (c1 - 128)) :: ·) := by
  rw [utf8Decode_match_step]
  have hs : utf8Step b (c1 :: rest) = some ((b - 192) * 64 + (c1 - 128), 1) := by
    unfold utf8Step
    rw [if_neg (by omega), if_neg (by omega), if_pos h2]
    simp [hc]
  rw [hs]
  rfl

theorem utf8Decode_cons3 (b c1 c2 : Nat) (rest : List Nat) (h1 : 224 ≤ b) (h2 : b < 240)
    (hc1 : isContByte c1 = true) (hc2 : isContByte c2 = true) :
    utf8Decode (b :: c1 :: c2 :: rest) =
      (utf8Decode rest).map (((b - 224) * 4096 + (c1 - 128) * 64 + (c2 - 128)) :: ·) := by
  rw [utf8Decode_match_step]
  have hs : utf8Step b (c1 :: c2 :: rest) =
      some ((b - 224) * 4096 + (c1 - 128) * 64 + (c2 - 128), 2) := by
    unfold utf8Step
    rw [if_neg (by omega), if_neg (by omega), if_neg (by omega), if_pos h2]
    simp [hc1, hc2]
  rw [hs]
  rfl

theorem utf8Decode_cons4 (b c1 c2 c3 : Nat) (rest : List Nat) (h1 : 240 ≤ b)
    (hc1 : isContByte c1 = true) (hc2 : isContByte c2 = true) (hc3 : isContByte c3 = true) :
    utf8Decode (b :: c1 :: c2 :: c3 :: rest) =
      (utf8Decode rest).map
        (((b - 240) * 262144 + (c1 - 128) * 4096 + (c2 - 128) * 64 + (c3 - 128)) :: ·) := by
  rw [utf8Decode_match_step]
  have hs : utf8Step b (c1 :: c2 :: c3 :: rest) =
      some ((b - 240) * 262144 + (c1 - 128) * 4096 + (c2 - 128) * 64 + (c3 - 128), 3) := by
    unfold utf8Step
    rw [if_neg (by omega), if_neg (by omega), if_neg (by omega), if_neg (by omega)]
    simp [hc1, hc2, hc3]
  rw [hs]
  rfl

theorem utf8Decode_encodeChar_append (n : Nat) (hn : n < 1114112) (rest : List Nat) :
    utf8Decode (utf8EncodeChar n ++ rest) = (utf8Decode rest).map (n :: ·) := by
  by_cases h1 : n < 128
  · have he : utf8EncodeChar n = [n] := by unfold utf8EncodeChar; rw [if_pos h1]
    rw [he, List.cons_append, List.nil_append, utf8Decode_cons1 _ _ h1]
  · by_cases h2 : n < 2048
    · have he : utf8EncodeChar n = [192 + n / 64, 128 + n % 64] := by
        unfold utf8EncodeChar; rw [if_neg h1, if_pos h2]
      rw [he]
      simp only [List.cons_append, List.nil_append]
      rw [utf8Decode_cons2 _ _ _ (by omega) (by omega) (by simp [isContByte]; omega)]
      have hv : (192 + n / 64 - 192) * 64 + (128 + n % 64 - 128) = n := by omega
      rw [hv]
    · by_cases h3 : n < 65536
      · have he : utf8EncodeChar n = [224 + n / 4096, 128 + n / 64 % 64, 128 + n % 64] := by
          unfold utf8EncodeChar; rw [if_neg h1, if_neg h2, if_pos h3]
        rw [he]
        simp only [List.cons_append, List.nil_append]
        rw [utf8Decode_cons3 _ _ _ _ (by omega) (by omega) (by simp [isContByte]; omega)
          (by simp [isContByte]; omega)]
        have hv : (224 + n / 4096 - 224) * 4096 + (128 + n / 64 % 64 - 128) * 64 +
            (128 + n % 64 - 128) = n := by omega
        rw [hv]
      · have he : utf8EncodeChar n =
            [240 + n / 262144, 128 + n / 4096 % 64, 128 + n / 64 % 64, 128 + n % 64] := by
          unfold utf8EncodeChar; rw [if_neg h1, if_neg h2, if_neg h3]
        rw [he]
        simp only [List.cons_append, List.nil_append]
        rw [utf8Decode_cons4 _ _ _ _ _ (by omega) (by simp [isContByte]; omega)
          (by simp [isContByte]; omega) (by simp [isContByte]; omega)]
        have hv : (240 + n / 262144 - 240) * 262144 + (128 + n / 4096 % 64 - 128) * 4096 +
            (128 + n / 64 % 64 - 128) * 64 + (128 + n % 64 - 128) = n := by omega
        rw [hv]

theorem utf8Decode_encodeList (cs : List Char) :
    utf8Decode (utf8EncodeList cs) = some (cs.map Char.toNat) := by
  induction cs with
  | nil =>
    show utf8Decode [] = some []
    rw [utf8Decode]
  | cons c cs ih =>
    simp only [utf8EncodeList, List.map_cons, List.flatten_cons]
    rw [utf8Decode_encodeChar_append c.toNat (char_toNat_lt c)]
    simp only [utf8EncodeList] at ih
    rw [ih]
    rfl

theorem utf8DecodeString_utf8Encode (s : String) : utf8DecodeString (utf8Encode s) = some s := by
  unfold utf8DecodeString utf8Encode
  rw [utf8Decode_encodeList]
  have hmap : (s.toList.map Char.toNat).map Char.ofNat = s.toList := by
    rw [List.map_map]
    have hco : (Char.ofNat ∘ Char.toNat) = id := by
      funext c
      simp [Char.ofNat_toNat]
    rw [hco, List.map_id]
  simp only [Option.map]
  rw [hmap]
  cases s
  rfl

/-- Ideal-functionality model of the PBKDF2-SHA256 (100000 iterations,
256-bit AES-GCM output) key exported as a JWK string by
`deriveMasterKey` in `src/utils/crypto.ts`. The derived key material is
a deterministic, collision-free function of the password and the
decoded salt bytes, so it is embedded as the pair itself; the JWK
serialization handed around as the session key is idealized as the
identity. -/
structure KeyMaterial where
  password : String
  salt : List Nat
deriving DecidableEq

/-- Numeric fingerprint of key material, used by the ideal cipher model. -/
def keyFP (k : KeyMaterial) : Nat :=
  bytesToNat (utf8Encode k.password) + 257 * bytesToNat k.salt

/-- Keystream byte `i` of the ideal cipher under key `k` and nonce `iv`. -/
def ksByte (k : KeyMaterial) (iv : List Nat) (i : Nat) : Nat :=
  (keyFP k + 131 * bytesToNat iv + 17 * i + 7) % 256

/-- Apply the ideal keystream starting at position `i`. -/
def maskBytes (k : KeyMaterial) (iv : List Nat) : Nat → List Nat → List Nat
  | _, [] => []
  | i, b :: bs => (b + ksByte k iv i) % 256 :: maskBytes k iv (i + 1) bs

/-- Invert the ideal keystream starting at position `i`. -/
def unmaskBytes (k : KeyMaterial) (iv : List Nat) : Nat → List Nat → List Nat
  | _, [] => []
  | i, b :: bs => (b + 256 - ksByte k iv i) % 256 :: unmaskBytes k iv (i + 1) bs

/-- The 16-byte authentication tag of the ideal AES-GCM model, a
recomputable function of key, nonce and ciphertext. -/
def gcmTag (k : KeyMaterial) (iv : List Nat) (ct : List Nat) : List Nat :=
  natToBytes 16 (keyFP k + 131 * bytesToNat iv + 251 * bytesToNat ct + ct.length)

/-- Ideal AES-GCM encryption: ciphertext followed by the 16-byte tag,
matching the `ciphertext.byteLength = plaintext.length + 16` shape of
`crypto.subtle.encrypt` with AES-GCM. -/
def gcmEncrypt (k : KeyMaterial) (iv : List Nat) (pt : List Nat) : List Nat :=
  maskBytes k iv 0 pt ++ gcmTag k iv (maskBytes k iv 0 pt)

/-- Ideal AES-GCM decryption: split the trailing 16-byte tag, recompute
and compare it, and fail (`none`, modelling the thrown `OperationError`)
on mismatch or if the data is shorter than the tag. -/
def gcmDecrypt (k : KeyMaterial) (iv : List Nat) (data : List Nat) : Option (List Nat) :=
  if data.length < 16 then none
  else if data.drop (data.length - 16) = gcmTag k iv (data.take (data.length - 16)) then
    some (unmaskBytes k iv 0 (data.take (data.length - 16)))
  else none

theorem unmaskBytes_maskBytes (k : KeyMaterial) (iv : List Nat) :
    ∀ (i : Nat) (pt : List Nat), (∀ b ∈ pt, b < 256) →
      unmaskBytes k iv i (maskBytes k iv i pt) = pt
  | _, [], _ => rfl
  | i, b :: bs, h => by
    have hb : b < 256 := h b (by simp)
    have hk : ksByte k iv i < 256 := Nat.mod_lt _ (by norm_num)
    simp only [maskBytes, unmaskBytes]
    congr 1
    · omega
    · exact unmaskBytes_maskBytes k iv (i + 1) bs (fun x hx => h x (by simp [hx]))

theorem maskBytes_length (k : KeyMaterial) (iv : List Nat) :
    ∀ (i : Nat) (pt : List Nat), (maskBytes k iv i pt).length = pt.length
  | _, [] => rfl
  | i, b :: bs => by simp [maskBytes, maskBytes_length k iv (i + 1) bs]

theorem maskBytes_lt (k : KeyMaterial) (iv : List Nat) :
    ∀ (i : Nat) (pt : List Nat), ∀ b ∈ maskBytes k iv i pt, b < 256
  | _, [], b, hb => by simp [maskBytes] at hb
  | i, x :: bs, b, hb => by
    simp only [maskBytes, List.mem_cons] at hb
    rcases hb with h | h
    · subst h; exact Nat.mod_lt _ (by norm_num)
    · exact maskBytes_lt k iv (i + 1) bs b h

theorem gcmEncrypt_lt (k : KeyMaterial) (iv : List Nat) (pt : List Nat) :
    ∀ b ∈ gcmEncrypt k iv pt, b < 256 := by
  intro b hb
  simp only [gcmEncrypt, List.mem_append] at hb
  rcases hb with h | h
  · exact maskBytes_lt k iv 0 pt b h
  · exact natToBytes_lt 16 _ b h

theorem gcmDecrypt_gcmEncrypt (k : KeyMaterial) (iv : List Nat) (pt : List Nat)
    (h : ∀ b ∈ pt, b < 256) : gcmDecrypt k iv (gcmEncrypt k iv pt) = some pt := by
  have htag : (gcmTag k iv (maskBytes k iv 0 pt)).length = 16 := natToBytes_length _ _
  have hlen : (gcmEncrypt k iv pt).length = (maskBytes k iv 0 pt).length + 16 := by
    simp [gcmEncrypt, htag]
  unfold gcmDecrypt
  rw [if_neg (by omega)]
  have hsub : (gcmEncrypt k iv pt).length - 16 = (maskBytes k iv 0 pt).length := by omega
  rw [hsub]
  unfold gcmEncrypt
  rw [List.take_left, List.drop_left, if_pos rfl, unmaskBytes_maskBytes k iv 0 pt h]

/-- The 12-byte IV produced by `crypto.getRandomValues(new Uint8Array(12))`
at draw index `n` of the idealized (collision-free) entropy source. -/
def ivGen (n : Nat) : List Nat := natToBytes 12 n

theorem ivGen_length (n : Nat) : (ivGen n).length = 12 := natToBytes_length 12 n

theorem ivGen_inj {n m : Nat} (hn : n < 256 ^ 12) (hm : m < 256 ^ 12)
    (h : ivGen n = ivGen m) : n = m := by
  have h1 := bytesToNat_natToBytes 12 n hn
  have h2 := bytesToNat_natToBytes 12 m hm
  have h3 : bytesToNat (natToBytes 12 n) = bytesToNat (natToBytes 12 m) := congrArg bytesToNat h
  omega

/-- Model of `deriveMasterKey` (`src/utils/crypto.ts`): decode the base64
salt with `atob` (`none` models the thrown error on a malformed salt),
then run the idealized PBKDF2 and export the key. -/
def deriveMasterKey (password : String) (salt : String) : Option KeyMaterial :=
  (atobBytes salt.toList).map (fun saltBytes => { password := password, salt := saltBytes })

/-- Model of `encryptVaultData` (`src/utils/crypto.ts`): generate a fresh
12-byte IV (draw `rng` of the idealized entropy source), AES-GCM encrypt
the UTF-8 bytes of `data`, prefix the IV, and base64 the result. -/
def encryptVaultData (data : String) (key : KeyMaterial) (rng : Nat) : List Char :=
  btoaBytes (ivGen rng ++ gcmEncrypt key (ivGen rng) (utf8Encode data))

/-- Model of `decryptVaultData` (`src/utils/crypto.ts`): base64-decode,
split the 12-byte IV prefix, AES-GCM decrypt the remainder, decode UTF-8.
`none` models any thrown error. -/
def decryptVaultData (encryptedData : List Char) (key : KeyMaterial) : Option String :=
  (atobBytes encryptedData).bind (fun combined =>
    (gcmDecrypt key (combined.take 12) (combined.drop 12)).bind (fun pt => utf8DecodeString pt))

theorem decryptVaultData_encryptVaultData (data : String) (key : KeyMaterial) (rng : Nat) :
    decryptVaultData (encryptVaultData data key rng) key = some data := by
  have hbytes : ∀ b ∈ ivGen rng ++ gcmEncrypt key (ivGen rng) (utf8Encode data), b < 256 := by
    intro b hb
    rcases List.mem_append.mp hb with h | h
    · exact natToBytes_lt 12 rng b h
    · exact gcmEncrypt_lt key (ivGen rng) (utf8Encode data) b h
  have h12 : (ivGen rng).length = 12 := ivGen_length rng
  unfold decryptVaultData encryptVaultData
  rw [atobBytes_btoaBytes _ hbytes, Option.some_bind, List.take_left' h12, List.drop_left' h12,
    gcmDecrypt_gcmEncrypt key (ivGen rng) (utf8Encode data) (utf8Encode_lt data),
    Option.some_bind]
  exact utf8DecodeString_utf8Encode data

/-- The credential record held by the background script
(`StoredCredential` in `src/extension/background/index.ts`). -/
structure StoredCredential where
  id : String
  name : String
  url : String
  username : String
  password : String
  notes : Option String
  createdAt : String
deriving DecidableEq

/-- Digits-to-number helper for the serialization model. -/
def digitsToNat (ds : List Char) : Nat :=
  ds.foldl (fun acc c => acc * 10 + (c.toNat - 48)) 0

/-- Read one length-prefixed string (`<len>:<chars>`). -/
def readLenStr (l : List Char) : Option (String × List Char) :=
  let ds := l.takeWhile (fun c => c.isDigit)
  let rest := l.dropWhile (fun c => c.isDigit)
  if ds.isEmpty then none
  else
    match rest with
    | ':' :: r =>
      let n := digitsToNat ds
      if n ≤ r.length then some (String.mk (r.take n), r.drop n) else none
    | _ => none

/-- Read an optional string (`0` = absent, `1<len>:<chars>` = present). -/
def readOptStr (l : List Char) : Option (Option String × List Char) :=
  match l with
  | '1' :: r => (readLenStr r).map (fun p => (some p.1, p.2))
  | '0' :: r => some (none, r)
  | _ => none

/-- Read one serialized `StoredCredential`. -/
def readStoredCredential (l : List Char) : Option (StoredCredential × List Char) := do
  let (id, r1) ← readLenStr l
  let (name, r2) ← readLenStr r1
  let (url, r3) ← readLenStr r2
  let (username, r4) ← readLenStr r3
  let (password, r5) ← readLenStr r4
  let (notes, r6) ← readOptStr r5
  let (createdAt, r7) ← readLenStr r6
  pure (⟨id, name, url, username, password, notes, createdAt⟩, r7)

/-- Read a count-prefixed credential list. -/
def readCredList : Nat → List Char → Option (List StoredCredential)
  | 0, [] => some []
  | 0, _ => none
  | n + 1, l => do
    let (c, r) ← readStoredCredential l
    let rest ← readCredList n r
    pure (c :: rest)

/-- Model of `JSON.parse` as used on the decrypted vault plaintext: the
inverse of the count- and length-prefixed injective serialization this
development uses in place of JSON text; `none` models a parse error. -/
def jsonParseCreds (s : String) : Option (List StoredCredential) :=
  let l := s.toList
  let ds := l.takeWhile (fun c => c.isDigit)
  let rest := l.dropWhile (fun c => c.isDigit)
  if ds.isEmpty then none
  else
    match rest with
    | ';' :: r => readCredList (digitsToNat ds) r
    | _ => none

/-- The value found under the `vault_credentials` key of
`chrome.storage.local`: missing, a plain (legacy, unencrypted) array, or
an encrypted envelope string. -/
inductive StorageValue where
  | absent
  | arr (items : List StoredCredential)
  | str (envelope : List Char)
deriving DecidableEq

/-- Model of `getDecryptedCredentials`
(`src/extension/background/index.ts`): return `[]` when locked, `[]`
when the record is absent, `[]` (with a warning) when the record is a
plain array, and otherwise decrypt and parse; any error thrown by
decryption or parsing is caught and `[]` is returned. -/
def getDecryptedCredentials (sessionKey : Option KeyMaterial) (storage : StorageValue) :
    List StoredCredential :=
  match sessionKey with
  | none => []
  | some key =>
    match storage with
    | .absent => []
    | .arr _ => []
    | .str envelope =>
      match decryptVaultData envelope key with
      | none => []
      | some plain => (jsonParseCreds plain).getD []

/-- C1: for every plaintext string `P`, key `K` and entropy draw `n`,
decrypting the envelope produced by `encryptVaultData P K` with
`decryptVaultData` under the same key `K` returns `P`. -/
theorem C1_encrypt_decrypt_roundtrip (P : String) (K : KeyMaterial) (n : Nat) :
    decryptVaultData (encryptVaultData P K n) K = some P :=
  decryptVaultData_encryptVaultData P K n

/-- A concrete key used in closed counterexamples and witnesses. -/
def sampleKey : KeyMaterial := { password := "pw", salt := [1] }

/-- A syntactically valid envelope (12-byte IV, empty ciphertext) whose
decryption fails: the data after the IV is shorter than the 16-byte tag. -/
def shortEnvelope : List Char := btoaBytes (natToBytes 12 0)

/-- C2 (counterexample): at a concrete session key and persisted
envelope, decryption fails, yet `getDecryptedCredentials` returns the
empty list — the caller receives `[]`, indistinguishable from an empty
vault, rather than an `AuthenticationFailure` result. -/
theorem C2_counterexample :
    decryptVaultData shortEnvelope sampleKey = none ∧
    getDecryptedCredentials (some sampleKey) (.str shortEnvelope) = [] := by
  constructor
  · decide
  · decide

/-- C2 (amended): when decryption of the persisted envelope fails, the
read operation catches the error and returns the empty credential list;
no failure result reaches the caller. -/
theorem C2_decrypt_failure_caught (k : KeyMaterial) (env : List Char)
    (h : decryptVaultData env k = none) :
    getDecryptedCredentials (some k) (.str env) = [] := by
  simp [getDecryptedCredentials, h]

/-- C2 (witness): the amended theorem instantiated at the concrete
failing envelope. -/
theorem C2_witness : getDecryptedCredentials (some sampleKey) (.str shortEnvelope) = [] :=
  C2_decrypt_failure_caught sampleKey shortEnvelope (by decide)

/-- C3: when no live session key is present (locked vault), the
credential read returns the empty list for every content of persisted
storage. -/
theorem C3_locked_returns_empty (storage : StorageValue) :
    getDecryptedCredentials none storage = [] := rfl

/-- C9: when the persisted vault record is a plain (unencrypted) array,
the credential read returns the empty list — the legacy data is
discarded, never decrypted, returned, or migrated — for every session
key and array content. -/
theorem C9_plain_array_ignored (sessionKey : Option KeyMaterial)
    (items : List StoredCredential) :
    getDecryptedCredentials sessionKey (.arr items) = [] := by
  cases sessionKey <;> rfl

/-- Sync status of the vault (`SyncStatus` in the store types). -/
inductive SyncStatus where
  | synced
  | pending
  | syncing
  | error
deriving DecidableEq

/-- A credential of the vault store (`Credential` in the store types).
The `id` produced by `crypto.randomUUID()` is idealized as the draw
index of the collision-free generator. -/
structure Credential where
  id : Nat
  name : String
  url : String
  username : String
  password : String
  notes : Option String
  lastUpdated : Nat
deriving DecidableEq

/-- The argument of `addCredential`: a credential without `id` and
`lastUpdated` (the `Omit` type in the source). -/
structure CredentialInput where
  name : String
  url : String
  username : String
  password : String
  notes : Option String
deriving DecidableEq

/-- `Partial Credential` as passed to `updateCredential`; a present
field overrides the stored one in the spread merge. The `lastUpdated`
member may be present but is always overwritten by the store. -/
structure CredentialUpdates where
  id : Option Nat
  name : Option String
  url : Option String
  username : Option String
  password : Option String
  notes : Option (Option String)
  lastUpdated : Option Nat
deriving DecidableEq

/-- The spread merge of `updateCredential`: stored fields, then the
updates, then `lastUpdated` set to the current time. -/
def applyUpdates (c : Credential) (u : CredentialUpdates) (now : Nat) : Credential :=
  { id := u.id.getD c.id
    name := u.name.getD c.name
    url := u.url.getD c.url
    username := u.username.getD c.username
    password := u.password.getD c.password
    notes := u.notes.getD c.notes
    lastUpdated := now }

/-- The vault store state slice mutated by the store operations. -/
structure VaultStoreState where
  isLocked : Bool
  credentials : List Credential
  syncStatus : SyncStatus
  lastSynced : Option Nat
deriving DecidableEq

/-- Length-prefixed serialization of one string field. -/
def serializeStr (s : String) : String := toString s.length ++ ":" ++ s

/-- Serialization of an optional field. -/
def serializeOptStr : Option String → String
  | none => "0"
  | some s => "1" ++ serializeStr s

/-- Serialization of one credential. -/
def serializeCred (c : Credential) : String :=
  serializeStr (toString c.id) ++ serializeStr c.name ++ serializeStr c.url ++
    serializeStr c.username ++ serializeStr c.password ++ serializeOptStr c.notes ++
    serializeStr (toString c.lastUpdated)

/-- The injective stand-in for `JSON.stringify` on the credential list. -/
def serializeCreds (l : List Credential) : String :=
  toString l.length ++ ";" ++ String.join (l.map serializeCred)

/-- Modelled from the spec: `saveCredentials` (`src/services/storage`) is
not among the provided sources; per spec sections 4.4 and 6 it
re-encrypts the entire current credential set into a single envelope
(always a full snapshot, never a diff) and overwrites the single vault
record wholesale. -/
def saveCredentials (credentials : List Credential) (key : KeyMaterial) (rng : Nat) :
    List Char :=
  encryptVaultData (serializeCreds credentials) key rng

/-- The `persistToStorage` helper of the vault store: saves the full set
when an encryption key is live, otherwise only warns and writes
nothing. -/
def persistToStorage (credentials : List Credential) (encryptionKey : Option KeyMaterial)
    (rng : Nat) : Option (List Char) :=
  encryptionKey.map (fun k => saveCredentials credentials k rng)

/-- Outcome of a store mutation: the new in-memory state, the envelope
written to storage (`none` when there was no encryption key), and
whether `syncVault` was invoked afterwards. -/
structure MutationResult where
  state : VaultStoreState
  persisted : Option (List Char)
  syncInvoked : Bool
deriving DecidableEq

/-- The new credential built by `addCredential`: the input plus a fresh
id (draw `uuid` of the idealized generator) and the current time. -/
def mkNewCredential (inp : CredentialInput) (uuid now : Nat) : Credential :=
  { id := uuid, name := inp.name, url := inp.url, username := inp.username,
    password := inp.password, notes := inp.notes, lastUpdated := now }

/-- Model of `addCredential` (vault store): append the new credential,
mark the sync status `pending`, persist the re-encrypted full set, then
invoke `syncVault` (whose transitions are modelled by `syncVault`). -/
def addCredential (inp : CredentialInput) (uuid now : Nat)
    (encryptionKey : Option KeyMaterial) (rng : Nat) (st : VaultStoreState) : MutationResult :=
  let st1 := { st with
    credentials := st.credentials ++ [mkNewCredential inp uuid now],
    syncStatus := .pending }
  { state := st1
    persisted := persistToStorage st1.credentials encryptionKey rng
    syncInvoked := true }

/-- Model of `updateCredential` (vault store): merge into the matching
credential, refresh `lastUpdated`, mark `pending`, persist, sync. -/
def updateCredential (id : Nat) (updates : CredentialUpdates) (now : Nat)
    (encryptionKey : Option KeyMaterial) (rng : Nat) (st : VaultStoreState) : MutationResult :=
  let st1 := { st with
    credentials :=
      st.credentials.map (fun c => if c.id = id then applyUpdates c updates now else c),
    syncStatus := .pending }
  { state := st1
    persisted := persistToStorage st1.credentials encryptionKey rng
    syncInvoked := true }

/-- Model of `deleteCredential` (vault store): remove by id, mark
`pending`, persist, sync. -/
def deleteCredential (id : Nat) (encryptionKey : Option KeyMaterial) (rng : Nat)
    (st : VaultStoreState) : MutationResult :=
  let st1 := { st with
    credentials := st.credentials.filter (fun c => c.id != id),
    syncStatus := .pending }
  { state := st1
    persisted := persistToStorage st1.credentials encryptionKey rng
    syncInvoked := true }

/-- C4: `addCredential` with a live encryption key assigns a fresh id
not shared with any existing credential (the new id being the next draw
of the collision-free generator, every stored id an earlier draw),
stamps `lastUpdated` with the current time, appends the new credential
leaving all existing ones unchanged, sets the sync status to `pending`,
persists the re-encrypted full new set as a single envelope — which
decrypts to the serialization of the entire new set, not a diff — and
then invokes the sync. -/
theorem C4_add_credential (inp : CredentialInput) (uuid now : Nat) (k : KeyMaterial)
    (rng : Nat) (st : VaultStoreState)
    (hfresh : ∀ c ∈ st.credentials, c.id < uuid) :
    (mkNewCredential inp uuid now).id ∉ st.credentials.map Credential.id ∧
    (mkNewCredential inp uuid now).lastUpdated = now ∧
    (addCredential inp uuid now (some k) rng st).state.credentials =
      st.credentials ++ [mkNewCredential inp uuid now] ∧
    (addCredential inp uuid now (some k) rng st).state.syncStatus = .pending ∧
    (addCredential inp uuid now (some k) rng st).persisted =
      some (encryptVaultData
        (serializeCreds (st.credentials ++ [mkNewCredential inp uuid now])) k rng) ∧
    (∀ env, (addCredential inp uuid now (some k) rng st).persisted = some env →
      decryptVaultData env k =
        some (serializeCreds (st.credentials ++ [mkNewCredential inp uuid now]))) ∧
    (addCredential inp uuid now (some k) rng st).syncInvoked = true := by
  refine ⟨?_, rfl, rfl, rfl, rfl, ?_, rfl⟩
  · intro hmem
    rcases List.mem_map.mp hmem with ⟨c, hc, hid⟩
    have hlt := hfresh c hc
    have hid2 : c.id = uuid := hid
    omega
  · intro env henv
    have h2 : some (encryptVaultData
        (serializeCreds (st.credentials ++ [mkNewCredential inp uuid now])) k rng) =
        some env := henv
    obtain rfl : env = _ := (Option.some.inj h2).symm
    exact decryptVaultData_encryptVaultData _ k rng

/-- A concrete mutation input used by witnesses. -/
def sampleInput : CredentialInput :=
  { name := "github", url := "https://github.com", username := "u", password := "p",
    notes := none }

/-- A concrete vault store state with an empty credential set. -/
def sampleState : VaultStoreState :=
  { isLocked := false, credentials := [], syncStatus := .synced, lastSynced := none }

/-- C4 (witness): the add theorem instantiated at a concrete input. -/
theorem C4_witness :
    (addCredential sampleInput 0 7 (some sampleKey) 0 sampleState).state.syncStatus =
      .pending ∧
    (addCredential sampleInput 0 7 (some sampleKey) 0 sampleState).syncInvoked = true := by
  have h := C4_add_credential sampleInput 0 7 sampleKey 0 sampleState
    (by intro c hc; simp [sampleState] at hc)
  exact ⟨h.2.2.2.1, h.2.2.2.2.2.2⟩

/-- C8: when `id` is not the id of any stored credential,
`updateCredential` and `deleteCredential` leave the credential list
exactly as it was — every element and every field, `lastUpdated`
included. -/
theorem C8_absent_id_noop (id : Nat) (u : CredentialUpdates) (now : Nat)
    (key : Option KeyMaterial) (rng : Nat) (st : VaultStoreState)
    (h : id ∉ st.credentials.map Credential.id) :
    (updateCredential id u now key rng st).state.credentials = st.credentials ∧
    (deleteCredential id key rng st).state.credentials = st.credentials := by
  have hne : ∀ c ∈ st.credentials, c.id ≠ id := by
    intro c hc heq
    exact h (List.mem_map.mpr ⟨c, hc, heq⟩)
  constructor
  · show st.credentials.map (fun c => if c.id = id then applyUpdates c u now else c) =
      st.credentials
    have hcong : ∀ c ∈ st.credentials,
        (if c.id = id then applyUpdates c u now else c) = (fun c => c) c := by
      intro c hc
      simp [if_neg (hne c hc)]
    rw [List.map_congr_left hcong]
    exact List.map_id' st.credentials
  · show st.credentials.filter (fun c => c.id != id) = st.credentials
    exact List.filter_eq_self.mpr (fun c hc => by simp [hne c hc])

/-- A concrete stored credential. -/
def sampleCred : Credential :=
  { id := 0, name := "n", url := "https://a.com", username := "us", password := "s",
    notes := none, lastUpdated := 3 }

/-- A concrete one-element vault store state. -/
def sampleCredState : VaultStoreState :=
  { isLocked := false, credentials := [sampleCred], syncStatus := .synced,
    lastSynced := some 1 }

/-- An update payload with no present field. -/
def emptyUpdates : CredentialUpdates :=
  { id := none, name := none, url := none, username := none, password := none,
    notes := none, lastUpdated := none }

/-- C8 (witness): the no-op theorem instantiated at a concrete state and
an id absent from it. -/
theorem C8_witness :
    (updateCredential 5 emptyUpdates 9 (some sampleKey) 0 sampleCredState).state.credentials =
      sampleCredState.credentials ∧
    (deleteCredential 5 (some sampleKey) 0 sampleCredState).state.credentials =
      sampleCredState.credentials :=
  C8_absent_id_noop 5 emptyUpdates 9 (some sampleKey) 0 sampleCredState (by decide)

/-- Remote status in the `syncChanges` response, per the spec contract
(section 6): `synced` or `error`. -/
inductive RemoteStatus where
  | synced
  | error
deriving DecidableEq

/-- The `syncChanges` response: a status and an optional timestamp. -/
structure SyncResponse where
  status : RemoteStatus
  timestamp : Option Nat
deriving DecidableEq

/-- A completed remote round trip: a response, or a thrown error. -/
inductive RemoteOutcome where
  | ok (response : SyncResponse)
  | threw
deriving DecidableEq

/-- JS truthiness of `result.timestamp`: `undefined` and `0` are falsy. -/
def jsTruthy : Option Nat → Bool
  | none => false
  | some t => t != 0

/-- First phase of `syncVault` (vault store): `setSyncStatus` to
`syncing` before the remote call. -/
def syncVaultBegin (st : VaultStoreState) : VaultStoreState :=
  { st with syncStatus := .syncing }

/-- Second phase of `syncVault`: handle the remote outcome. The success
branch is taken only when the status is `synced` AND the timestamp is
truthy; an `error` report or a thrown round trip sets `error`; any other
outcome leaves the state (still `syncing`) unchanged. -/
def syncVaultResolve (outcome : RemoteOutcome) (st : VaultStoreState) : VaultStoreState :=
  match outcome with
  | .threw => { st with syncStatus := .error }
  | .ok r =>
    match r.status with
    | .synced =>
      if jsTruthy r.timestamp then
        { st with syncStatus := .synced, lastSynced := r.timestamp }
      else st
    | .error => { st with syncStatus := .error }

/-- Model of `syncVault` (vault store): mark `syncing`, run the remote
call, resolve its outcome. -/
def syncVault (outcome : RemoteOutcome) (st : VaultStoreState) : VaultStoreState :=
  syncVaultResolve outcome (syncVaultBegin st)

/-- A concrete vault store state with `pending` status. -/
def pendingState : VaultStoreState :=
  { isLocked := false, credentials := [], syncStatus := .pending, lastSynced := none }

/-- C5 (counterexample): a remote response reporting success with
timestamp 0 — a response "reporting success with a timestamp" — leaves
the status `syncing` instead of moving it to `synced`, because the code
tests the timestamp for JS truthiness and 0 is falsy. -/
theorem C5_counterexample :
    (syncVault (.ok { status := .synced, timestamp := some 0 }) pendingState).syncStatus =
      .syncing ∧
    (syncVault (.ok { status := .synced, timestamp := some 0 }) pendingState).syncStatus ≠
      .synced := by
  decide

/-- C5 (amended): the sync state machine with a nonzero-timestamp
proviso: any mutation (add, update, delete) moves the status to
`pending` (in particular from `synced`); invoking sync first moves it to
`syncing`; a remote response reporting success with a nonzero timestamp
moves it to `synced` and sets `lastSynced` to the reported timestamp; a
remote response reporting failure, or a throwing round trip, moves it to
`error`. -/
theorem C5_sync_state_machine :
    (∀ inp uuid now key rng st, st.syncStatus = .synced →
      (addCredential inp uuid now key rng st).state.syncStatus = .pending) ∧
    (∀ id u now key rng st, st.syncStatus = .synced →
      (updateCredential id u now key rng st).state.syncStatus = .pending) ∧
    (∀ id key rng st, st.syncStatus = .synced →
      (deleteCredential id key rng st).state.syncStatus = .pending) ∧
    (∀ st, (syncVaultBegin st).syncStatus = .syncing) ∧
    (∀ st t, t ≠ 0 →
      (syncVault (.ok { status := .synced, timestamp := some t }) st).syncStatus = .synced ∧
      (syncVault (.ok { status := .synced, timestamp := some t }) st).lastSynced = some t) ∧
    (∀ st ts, (syncVault (.ok { status := .error, timestamp := ts }) st).syncStatus = .error) ∧
    (∀ st, (syncVault .threw st).syncStatus = .error) := by
  refine ⟨fun _ _ _ _ _ _ _ => rfl, fun _ _ _ _ _ _ _ => rfl, fun _ _ _ _ _ => rfl,
    fun _ => rfl, ?_, fun _ _ => rfl, fun _ => rfl⟩
  intro st t ht
  have htr : jsTruthy (some t) = true := by simp [jsTruthy, ht]
  constructor
  · simp [syncVault, syncVaultResolve, syncVaultBegin, htr]
  · simp [syncVault, syncVaultResolve, syncVaultBegin, htr]

/-- C5 (witness): the state machine applied at concrete inputs. -/
theorem C5_witness :
    (addCredential sampleInput 1 7 (some sampleKey) 0 sampleState).state.syncStatus =
      .pending ∧
    (syncVault (.ok { status := .synced, timestamp := some 5 }) sampleState).syncStatus =
      .synced :=
  ⟨C5_sync_state_machine.1 sampleInput 1 7 (some sampleKey) 0 sampleState rfl,
    (C5_sync_state_machine.2.2.2.2.1 sampleState 5 (by decide)).1⟩

/-- C10 (counterexample): a remote response reporting success without a
timestamp takes neither branch of the resolution, so after `syncVault`
completes the status is still `syncing`. -/
theorem C10_counterexample :
    (syncVault (.ok { status := .synced, timestamp := none }) pendingState).syncStatus =
      .syncing := by
  decide

/-- Whether an outcome is a success report with a falsy (missing or
zero) timestamp: exactly the case the resolution code silently skips. -/
def falsySuccess : RemoteOutcome → Bool
  | .ok r => r.status == .synced && !(jsTruthy r.timestamp)
  | .threw => false

/-- C10 (amended): after any `syncVault` call, the status is `synced` or
`error` — except when the remote reports success with a missing or zero
timestamp, in which case it remains `syncing`. -/
theorem C10_sync_resolution (outcome : RemoteOutcome) (st : VaultStoreState) :
    (syncVault outcome st).syncStatus = .synced ∨
    (syncVault outcome st).syncStatus = .error ∨
    ((syncVault outcome st).syncStatus = .syncing ∧ falsySuccess outcome = true) := by
  rcases outcome with r | _
  · rcases r with ⟨status, ts⟩
    cases status
    · by_cases h : jsTruthy ts = true
      · left
        simp [syncVault, syncVaultResolve, syncVaultBegin, h]
      · right; right
        constructor
        · simp [syncVault, syncVaultResolve, syncVaultBegin, h, syncVaultBegin]
        · simp [falsySuccess, h]
    · right; left; rfl
  · right; left; rfl

/-- All bytes of the envelope byte string (IV plus GCM output) are below
256. -/
theorem envelopeBytes_lt (data : String) (key : KeyMaterial) (rng : Nat) :
    ∀ b ∈ ivGen rng ++ gcmEncrypt key (ivGen rng) (utf8Encode data), b < 256 := by
  intro b hb
  rcases List.mem_append.mp hb with h | h
  · exact natToBytes_lt 12 rng b h
  · exact gcmEncrypt_lt key (ivGen rng) (utf8Encode data) b h

/-- C6: a fresh random nonce is generated on every encryption call and
never reused under the same key — modelled as distinct draws of the
idealized entropy source within its period — so two separate calls to
`encryptVaultData` with the same plaintext and key produce different
nonces and different envelopes. -/
theorem C6_fresh_nonce_distinct_envelopes (P : String) (K : KeyMaterial) (n m : Nat)
    (hn : n < 256 ^ 12) (hm : m < 256 ^ 12) (hnm : n ≠ m) :
    ivGen n ≠ ivGen m ∧ encryptVaultData P K n ≠ encryptVaultData P K m := by
  have hiv : ivGen n ≠ ivGen m := fun h => hnm (ivGen_inj hn hm h)
  refine ⟨hiv, fun he => ?_⟩
  have hb := btoaBytes_inj (envelopeBytes_lt P K n) (envelopeBytes_lt P K m) he
  have hlen : (ivGen n).length = (ivGen m).length := by
    rw [ivGen_length, ivGen_length]
  exact hiv (List.append_inj_left hb hlen)

/-- C6 (witness): the nonce-freshness theorem at two concrete draws. -/
theorem C6_witness : encryptVaultData "a" sampleKey 0 ≠ encryptVaultData "a" sampleKey 1 :=
  (C6_fresh_nonce_distinct_envelopes "a" sampleKey 0 1 (by decide) (by decide) (by decide)).2

/-- C7 (counterexample): the salt strings "QQ==" and "QQ" differ, yet
forgiving base64 (`atob`) decodes both to the same byte, so
`deriveMasterKey` returns identical key material for differing salts. -/
theorem C7_counterexample :
    deriveMasterKey "pw" "QQ==" = deriveMasterKey "pw" "QQ" ∧ ("QQ==" : String) ≠ "QQ" := by
  constructor
  · decide
  · decide

/-- C7 (amended): key derivation is deterministic — identical password
and salt always yield the same key material — and two successful
derivations whose salts decode to different byte sequences yield
different key material. -/
theorem C7_derive_deterministic (pw s1 s2 : String) (k1 k2 : KeyMaterial)
    (h1 : deriveMasterKey pw s1 = some k1) (h2 : deriveMasterKey pw s2 = some k2)
    (hne : atobBytes s1.toList ≠ atobBytes s2.toList) :
    deriveMasterKey pw s1 = deriveMasterKey pw s1 ∧ k1 ≠ k2 := by
  refine ⟨rfl, fun heq => ?_⟩
  unfold deriveMasterKey at h1 h2
  obtain ⟨a1, ha1, hk1⟩ := Option.map_eq_some'.mp h1
  obtain ⟨a2, ha2, hk2⟩ := Option.map_eq_some'.mp h2
  apply hne
  rw [ha1, ha2]
  rw [← hk1, ← hk2] at heq
  have hsalt : a1 = a2 := congrArg KeyMaterial.salt heq
  rw [hsalt]

/-- C7 (witness): two valid salts decoding to different bytes produce
different keys. -/
theorem C7_witness :
    ({ password := "x", salt := [65] } : KeyMaterial) ≠ { password := "x", salt := [66] } :=
  (C7_derive_deterministic "x" "QQ==" "Qg==" { password := "x", salt := [65] }
    { password := "x", salt := [66] } (by decide) (by decide) (by decide)).2
